import Mathlib

/-!
Verification of the stash sqlite-to-postgres migration tool.

This file gives a shallow embedding of the migration pipeline found in
`main.go` (the variant with the full repair-rule set and one run-wide
destination transaction) and in the second pipeline variant (the one that
opens a fresh destination transaction for every batch), and proves the
spec's claims about it.

Modelling conventions:
* a scanned row value (Go `interface{}`) is the tagged union `Value`;
  floating-point scan values are untouched by every repair rule and are
  omitted from the variant set;
* a row (Go `map[string]interface{}`) is an association list with
  map-style lookup and update;
* `time.Time` is modelled by `GoTime`, carrying the calendar year (the
  only field the code inspects) plus an abstract remainder so distinct
  instants exist;
* the external library calls `time.Parse` and `json.Unmarshal` are
  modelled by function parameters (`parse : String → Option GoTime`,
  `jsonErr : String → Option String` where `some e` is a parse error);
* Go code that panics (nil `reflect.Type` dereference) is modelled with
  `Option`, `none` standing for the panic.
-/

namespace StashMigrate

/-- Model of Go `time.Time`: the calendar year (all the code inspects)
plus an abstract sub-year remainder so that distinct instants exist. -/
structure GoTime where
  year : Int
  sub : Nat
deriving DecidableEq

/-- Embeds `isValidPostgresTime` from `main.go`: Postgres cannot handle
times before year 0001, so the check is `t.Year() >= 1`. -/
def isValidPostgresTime (t : GoTime) : Bool :=
  decide (1 ≤ t.year)

/-- A dynamically-typed scanned value (Go `interface{}` as produced by
`MapScan`): SQLite hands back int64, string, bool, `[]byte`, `time.Time`
or nil. REAL columns are not touched by any repair rule and are omitted. -/
inductive Value where
  | vNull
  | vInt (i : Int)
  | vBool (b : Bool)
  | vStr (s : String)
  | vBytes (bs : List Nat)
  | vTime (t : GoTime)
deriving DecidableEq

/-- A row: Go `map[string]interface{}` as an association list. -/
abbrev Row := List (String × Value)

/-- Map lookup `row[k]` with presence flag (`v, ok := row[k]`). -/
def lookVal : Row → String → Option Value
  | [], _ => none
  | (k', v) :: rest, k => if k' = k then some v else lookVal rest k

/-- Map assignment `row[k] = v`: replace the first binding of `k`, or
append a fresh binding when the key is absent. -/
def setVal : Row → String → Value → Row
  | [], k, v => [(k, v)]
  | (k', v') :: rest, k, v =>
    if k' = k then (k, v) :: rest else (k', v') :: setVal rest k v

/-- Go map read without the presence flag: a missing key yields the zero
value of the value type, i.e. the nil interface. -/
def goValue (r : Row) (k : String) : Value :=
  (lookVal r k).getD Value.vNull

/-- Embeds `clampInt64ToInt32` from `main.go`: clamp an int64 into the
int32 range. -/
def clampInt64ToInt32 (value : Int) : Int :=
  if value > 2147483647 then 2147483647
  else if value < -2147483648 then -2147483648
  else value

/-- The `video_files` repair (``Hotfix the funspeed generator``): when
`interactive_speed` holds an int64, clamp it; any other value (including
an absent key, whose type assertion fails) is left alone. -/
def clampRow (r : Row) : Row :=
  match lookVal r "interactive_speed" with
  | some (Value.vInt v) => setVal r "interactive_speed" (Value.vInt (clampInt64ToInt32 v))
  | _ => r

/-- The `video_files` repair applied to a batch. -/
def clampBatch (batch : List Row) : List Row :=
  batch.map clampRow

/-- Models `reflect.TypeOf(v).String()`. `reflect.TypeOf(nil)` returns a
nil `reflect.Type`, so calling `String()` on it panics: `none`. -/
def reflectTypeString : Value → Option String
  | Value.vNull => none
  | Value.vInt _ => some "int64"
  | Value.vBool _ => some "bool"
  | Value.vStr _ => some "string"
  | Value.vBytes _ => some "[]uint8"
  | Value.vTime _ => some "time.Time"

/-- The `performer_custom_fields` repair on one row: `row["type"] =
reflect.TypeOf(row["value"]).String()`; panics (`none`) when the value
column is nil. -/
def typeTagRow (r : Row) : Option Row :=
  match reflectTypeString (goValue r "value") with
  | none => none
  | some s => some (setVal r "type" (Value.vStr s))

/-- The `performer_custom_fields` repair on a batch: tag every row, the
first nil value column panicking the run. -/
def typeTagBatch : List Row → Option (List Row)
  | [] => some []
  | r :: rs =>
    match typeTagRow r with
    | none => none
    | some r2 =>
      match typeTagBatch rs with
      | none => none
      | some rest => some (r2 :: rest)

/-- The designated JSON columns of `saved_filters`. -/
def designatedJsonCols : List String :=
  ["find_filter", "object_filter", "ui_options"]

/-- Scan the designated columns in order and return the first one whose
value is a string that fails to parse as JSON, together with the parse
error and the raw text; the loop breaks at the first failure, and
non-string values are skipped (their type assertion fails). -/
def firstBadCol (jsonErr : String → Option String) (row : Row) :
    List String → Option (String × String × String)
  | [] => none
  | obj :: rest =>
    match lookVal row obj with
    | some (Value.vStr s) =>
      match jsonErr s with
      | some e => some (obj, e, s)
      | none => firstBadCol jsonErr row rest
    | _ => firstBadCol jsonErr row rest

/-- The diagnostic logged when a `saved_filters` row is dropped, naming
the column, the parse error and the offending raw text. -/
def skipMsg (obj e s : String) : String :=
  "Skipping row due to invalid JSON in " ++ obj ++ ": " ++ e ++ "\nData: " ++ s

/-- True when the row would be dropped by the JSON-validity rule. -/
def badRow (jsonErr : String → Option String) (r : Row) : Bool :=
  (firstBadCol jsonErr r designatedJsonCols).isSome

/-- The `saved_filters` repair: keep the rows whose designated JSON
columns all parse, drop the rest, logging one diagnostic per dropped
row, in row order. -/
def savedFiltersRepair (jsonErr : String → Option String) :
    List Row → List Row × List String
  | [] => ([], [])
  | r :: rs =>
    let p := savedFiltersRepair jsonErr rs
    match firstBadCol jsonErr r designatedJsonCols with
    | some (obj, e, s) => (p.1, skipMsg obj e s :: p.2)
    | none => (r :: p.1, p.2)

/-- The designated timestamp columns of `scene_markers`. -/
def tsKeys : List String :=
  ["created_at", "updated_at"]

/-- One timestamp fix from the `scene_markers` repair, switch on the
dynamic type of the value: a string is parsed (parse failure or an
out-of-range result substitutes now, with a diagnostic), a pre-parsed
time is range-checked, and anything else substitutes now. The Go log
lines also render the offending value (`%v`), elided here. -/
def fixTime (parse : String → Option GoTime) (now : GoTime) (tsKey : String) :
    Value → Value × Option String
  | Value.vStr s =>
    match parse s with
    | some t =>
      if isValidPostgresTime t then (Value.vTime t, none)
      else (Value.vTime now, some ("Invalid time for " ++ tsKey))
    | none => (Value.vTime now, some ("Invalid time for " ++ tsKey))
  | Value.vTime t =>
    if isValidPostgresTime t then (Value.vTime t, none)
    else (Value.vTime now, some ("Out-of-range time for " ++ tsKey))
  | _ => (Value.vTime now, some ("Unrecognized time format for " ++ tsKey))

/-- Walk the designated timestamp keys in order over one row, fixing each
key that is present (`val, ok := row[tsKey]; ok`) and collecting the
diagnostics. -/
def fixRowTimesAux (parse : String → Option GoTime) (now : GoTime) :
    List String → Row → Row × List String
  | [], row => (row, [])
  | k :: ks, row =>
    match lookVal row k with
    | none => fixRowTimesAux parse now ks row
    | some v =>
      let fv := fixTime parse now k v
      let p := fixRowTimesAux parse now ks (setVal row k fv.1)
      (p.1, fv.2.toList ++ p.2)

/-- The `scene_markers` repair on one row. -/
def fixRowTimes (parse : String → Option GoTime) (now : GoTime) (row : Row) :
    Row × List String :=
  fixRowTimesAux parse now tsKeys row

/-- The `scene_markers` repair on a batch: every row is fixed in place,
so the row count is unchanged. -/
def sceneMarkersRepair (parse : String → Option GoTime) (now : GoTime) :
    List Row → List Row × List String
  | [] => ([], [])
  | r :: rs =>
    let fr := fixRowTimes parse now r
    let p := sceneMarkersRepair parse now rs
    (fr.1 :: p.1, fr.2 ++ p.2)

/-- Embeds the repair dispatch of `migrate` in `main.go`: the four
table-name-keyed hotfix blocks run in source order just before the
insert; every other table passes through unmodified. `none` models the
panic of the type-tag rule. -/
def repairBatch (jsonErr : String → Option String)
    (parse : String → Option GoTime) (now : GoTime)
    (table : String) (batch : List Row) : Option (List Row × List String) :=
  let b1 := if table = "video_files" then clampBatch batch else batch
  match (if table = "performer_custom_fields" then typeTagBatch b1 else some b1) with
  | none => none
  | some b2 =>
    let p3 := if table = "saved_filters" then savedFiltersRepair jsonErr b2 else (b2, [])
    let p4 := if table = "scene_markers" then sceneMarkersRepair parse now p3.1 else (p3.1, [])
    some (p4.1, p3.2 ++ p4.2)

/-- The fixed table list of `migrate`, in dependency order. -/
def migrateTables : List String :=
  ["blobs", "files", "files_fingerprints", "folders", "galleries",
   "galleries_chapters", "galleries_files", "galleries_images",
   "galleries_tags", "gallery_urls", "group_urls", "groups",
   "groups_relations", "groups_scenes", "groups_tags", "image_files",
   "image_urls", "images", "images_files", "images_tags",
   "performer_aliases", "performer_stash_ids", "performer_urls",
   "performers", "performers_galleries", "performers_images",
   "performers_scenes", "performers_tags", "saved_filters",
   "scene_markers", "scene_markers_tags", "scene_stash_ids",
   "scene_urls", "scenes", "scenes_files", "scenes_galleries",
   "scenes_o_dates", "scenes_tags", "scenes_view_dates",
   "studio_aliases", "studio_stash_ids", "studios", "studios_tags",
   "tag_aliases", "tags", "tags_relations", "video_captions",
   "video_files"]

/-- The tables whose sequences are resynchronized after the load. -/
def seqTables : List String :=
  ["files", "folders", "galleries_chapters", "groups", "images",
   "performers", "saved_filters", "scene_markers", "scenes", "studios",
   "tags"]

/-- The fixed page size of the fetch loop. -/
def batchSize : Nat := 1000

/-- One fetch of the loop: `SELECT * FROM t LIMIT P OFFSET off` over the
source's natural row order. -/
def fetchPage (rows : List Row) (P off : Nat) : List Row :=
  (rows.drop off).take P

/-- The fetch loop of `migrate`, fuel-recursive so it computes: fetch the
page at `off`, stop on an empty page, else emit it and advance the offset
by the page size. The fuel is an upper bound on the iteration count,
discharged by `migrateLoop`. -/
def migrateLoopAux (P : Nat) (rows : List Row) : Nat → Nat → List (List Row)
  | 0, _ => []
  | fuel + 1, off =>
    let page := fetchPage rows P off
    if page = [] then [] else page :: migrateLoopAux P rows fuel (off + P)

/-- The non-empty batches fetched for one table, in fetch order. -/
def migrateLoop (P : Nat) (rows : List Row) : List (List Row) :=
  migrateLoopAux P rows (rows.length + 1) 0

/-- Structural page splitter: the same batches as the fetch loop (see the
bridge lemma), convenient for induction. -/
def paginateAux (P : Nat) : Nat → List Row → List (List Row)
  | _, [] => []
  | 0, _ :: _ => []
  | fuel + 1, x :: xs =>
    (x :: xs.take (P - 1)) :: paginateAux P fuel (xs.drop (P - 1))

/-- Page splitter entry point with enough fuel. -/
def paginate (P : Nat) (l : List Row) : List (List Row) :=
  paginateAux P l.length l

/-- Run the repair pipeline over a list of fetched batches, concatenating
the repaired batches (the rows inserted into the destination) and the
diagnostics; `none` models an aborting panic. -/
def migrateBatches (jsonErr : String → Option String)
    (parse : String → Option GoTime) (now : GoTime) (table : String) :
    List (List Row) → Option (List Row × List String)
  | [] => some ([], [])
  | b :: bs =>
    match repairBatch jsonErr parse now table b with
    | none => none
    | some p =>
      match migrateBatches jsonErr parse now table bs with
      | none => none
      | some q => some (p.1 ++ q.1, p.2 ++ q.2)

/-- One table's migration: fetch all batches with the paged loop, repair
each, and collect the rows written to the destination plus the
diagnostics. -/
def migrateTable (jsonErr : String → Option String)
    (parse : String → Option GoTime) (now : GoTime)
    (P : Nat) (table : String) (rows : List Row) :
    Option (List Row × List String) :=
  migrateBatches jsonErr parse now table (migrateLoop P rows)

/-- Maximum of a list of ids (`max(id)`), `none` on an empty table. -/
def maxId : List Int → Option Int
  | [] => none
  | x :: xs =>
    some (match maxId xs with
          | none => x
          | some m => max x m)

/-- Models the destination-native statement `restart_seq`: `setval(seq,
COALESCE(max(id) + 1, 1), false)` sets the next generated id to
`max(id) + 1`, or to `1` when the table is empty. -/
def restartSeqNext (ids : List Int) : Int :=
  match maxId ids with
  | none => 1
  | some m => m + 1

/-- Outcome of writing a table's batches to the destination: the batches
whose transaction committed, the number of destination commits, and
whether the run succeeded. -/
structure RunResult where
  committed : List (List Row)
  commits : Nat
  ok : Bool
deriving DecidableEq

/-- The per-batch-transaction write loop (second pipeline variant): each
batch gets `BeginTxx; ExecContext; Commit` of its own; an exec failure
aborts the run with that batch's transaction never committed. `execFails
i` injects an exec error at global batch index `i`. -/
def writeBatchesPerTxn (execFails : Nat → Bool) (idx : Nat) :
    List (List Row) → RunResult
  | [] => ⟨[], 0, true⟩
  | b :: rest =>
    if execFails idx then ⟨[], 0, false⟩
    else
      let r := writeBatchesPerTxn execFails (idx + 1) rest
      ⟨b :: r.committed, r.commits + 1, r.ok⟩

/-- Execute every batch inside one open transaction, reporting whether
all execs succeeded. -/
def execAllBatches (execFails : Nat → Bool) (idx : Nat) :
    List (List Row) → Bool
  | [] => true
  | _ :: rest =>
    if execFails idx then false else execAllBatches execFails (idx + 1) rest

/-- The run-wide-transaction write loop (`main.go` variant): one
`BeginTxx` before the table loop, one `Commit` after the sequence
resync; an exec failure anywhere leaves the single transaction
uncommitted, so nothing reaches the destination. -/
def writeBatchesOneTxn (execFails : Nat → Bool)
    (batches : List (List Row)) : RunResult :=
  if execAllBatches execFails 0 batches then ⟨batches, 1, true⟩
  else ⟨[], 0, false⟩

/-- True when an optional scanned value is a string (the shape on which
the JSON filter's type assertion succeeds). -/
def isStringVal : Option Value → Bool
  | some (Value.vStr _) => true
  | _ => false

/-! Concrete inputs used by witnesses. -/

/-- A concrete three-row table used by witnesses. -/
def exRows : List Row :=
  [[("id", Value.vInt 1)], [("id", Value.vInt 2)], [("id", Value.vInt 3)]]

/-- A concrete JSON validity oracle: only the text `[` fails to parse. -/
def exJsonErr : String → Option String :=
  fun s => if s = "[" then some "unexpected end of JSON input" else none

/-- A row whose designated JSON column holds valid JSON text. -/
def exGoodRow : Row := [("id", Value.vInt 1), ("find_filter", Value.vStr "[]")]

/-- A row whose designated JSON column holds invalid JSON text. -/
def exBadRow : Row := [("id", Value.vInt 2), ("find_filter", Value.vStr "[")]

/-- A JSON validity oracle that rejects every string. -/
def exAllBadJson : String → Option String := fun _ => some "always invalid"

/-- A row whose designated JSON columns all hold non-string values. -/
def exNonStringRow : Row :=
  [("find_filter", Value.vNull), ("object_filter", Value.vBytes [1]),
   ("ui_options", Value.vInt 0)]

/-- A concrete RFC3339 parser fragment used by witnesses. -/
def exParse : String → Option GoTime :=
  fun s =>
    if s = "2024-01-01T00:00:00Z" then some ⟨2024, 5⟩
    else if s = "0000-06-01T00:00:00Z" then some ⟨0, 3⟩
    else none

/-- A concrete current instant used by witnesses. -/
def exNow : GoTime := ⟨2025, 1⟩

/-- A concrete scene markers row used by witnesses. -/
def exMarkerRow : Row :=
  [("id", Value.vInt 1), ("created_at", Value.vStr "2024-01-01T00:00:00Z"),
   ("updated_at", Value.vTime ⟨0, 9⟩)]

/-- Two concrete single-row batches used by the transaction witnesses. -/
def exB0 : List Row := [[("id", Value.vInt 1)]]

/-- Second concrete batch for the transaction witnesses. -/
def exB1 : List Row := [[("id", Value.vInt 2)]]

/-! Helper lemmas. -/

/-- A non-empty id list has a maximum: it is in the list, bounds every
element, and `maxId` returns it. -/
theorem maxId_spec : ∀ ids : List Int, ids ≠ [] →
    ∃ m, maxId ids = some m ∧ m ∈ ids ∧ ∀ x ∈ ids, x ≤ m := by
  intro ids
  induction ids with
  | nil => intro h; exact absurd rfl h
  | cons x xs ih =>
    intro _
    cases hm : maxId xs with
    | none =>
      have hxs : xs = [] := by
        cases xs with
        | nil => rfl
        | cons y ys => simp [maxId] at hm
      subst hxs
      exact ⟨x, by simp [maxId], by simp, by simp⟩
    | some m =>
      have hne : xs ≠ [] := by
        intro h2
        subst h2
        simp [maxId] at hm
      obtain ⟨m2, hm2, hmem, hub⟩ := ih hne
      have heq : m2 = m := by
        rw [hm] at hm2
        exact (Option.some.inj hm2).symm
      refine ⟨max x m2, ?_, ?_, ?_⟩
      · simp [maxId, hm, heq]
      · rcases le_total x m2 with h | h
        · simp [max_eq_right h, List.mem_cons_of_mem _ hmem]
        · simp [max_eq_left h]
      · intro y hy
        rcases List.mem_cons.mp hy with h | h
        · subst h; exact le_max_left _ _
        · exact le_trans (hub y h) (le_max_right _ _)

/-- The page splitter ignores any fuel at or above the list length. -/
theorem paginateAux_fuel_irrel (P : Nat) :
    ∀ f1 f2 (l : List Row), l.length ≤ f1 → l.length ≤ f2 →
      paginateAux P f1 l = paginateAux P f2 l := by
  intro f1
  induction f1 with
  | zero =>
    intro f2 l h1 h2
    match l with
    | [] => cases f2 <;> rfl
    | x :: xs => simp at h1
  | succ f ih =>
    intro f2 l h1 h2
    match l with
    | [] => cases f2 <;> rfl
    | x :: xs =>
      match f2 with
      | 0 => simp at h2
      | g + 1 =>
        simp only [paginateAux]
        rw [ih g (xs.drop (P - 1)) ?_ ?_]
        · simp only [List.length_drop]
          simp at h1
          omega
        · simp only [List.length_drop]
          simp at h2
          omega

/-- Unfolding of `paginate` on a cons cell. -/
theorem paginate_cons (P : Nat) (x : Row) (xs : List Row) :
    paginate P (x :: xs) = (x :: xs.take (P - 1)) :: paginate P (xs.drop (P - 1)) := by
  have hlen : (xs.drop (P - 1)).length ≤ xs.length := by
    simp [List.length_drop]
  simp only [paginate, List.length_cons, paginateAux]
  rw [paginateAux_fuel_irrel P xs.length (xs.drop (P - 1)).length (xs.drop (P - 1)) hlen le_rfl]

/-- Concatenating the pages recovers the source list in order. -/
theorem paginate_flatten (P : Nat) : ∀ (n : Nat) (l : List Row), l.length ≤ n →
    (paginate P l).flatten = l := by
  intro n
  induction n with
  | zero =>
    intro l h
    match l with
    | [] => rfl
    | x :: xs => simp at h
  | succ n ih =>
    intro l h
    match l with
    | [] => rfl
    | x :: xs =>
      rw [paginate_cons]
      have hlen : (xs.drop (P - 1)).length ≤ n := by
        simp only [List.length_drop]
        simp at h
        omega
      simp [ih _ hlen, List.take_append_drop]

/-- Every page is non-empty. -/
theorem paginate_nonempty (P : Nat) : ∀ (n : Nat) (l : List Row), l.length ≤ n →
    ∀ b ∈ paginate P l, b ≠ [] := by
  intro n
  induction n with
  | zero =>
    intro l h b hb
    match l with
    | [] => simp [paginate, paginateAux] at hb
    | x :: xs => simp at h
  | succ n ih =>
    intro l h b hb
    match l with
    | [] => simp [paginate, paginateAux] at hb
    | x :: xs =>
      rw [paginate_cons] at hb
      have hlen : (xs.drop (P - 1)).length ≤ n := by
        simp only [List.length_drop]
        simp at h
        omega
      rcases List.mem_cons.mp hb with h2 | h2
      · subst h2; simp
      · exact ih _ hlen b h2

/-- The number of pages is the ceiling of the list length over the page
size. -/
theorem paginate_length (P : Nat) (hP : 0 < P) :
    ∀ (n : Nat) (l : List Row), l.length ≤ n →
      (paginate P l).length = (l.length + P - 1) / P := by
  obtain ⟨Q, rfl⟩ : ∃ Q, P = Q + 1 := ⟨P - 1, by omega⟩
  intro n
  induction n with
  | zero =>
    intro l h
    match l with
    | [] => simp [paginate, paginateAux, Nat.div_eq_of_lt (by omega : Q < Q + 1)]
    | x :: xs => simp at h
  | succ n ih =>
    intro l h
    match l with
    | [] => simp [paginate, paginateAux, Nat.div_eq_of_lt (by omega : Q < Q + 1)]
    | x :: xs =>
      rw [paginate_cons]
      have hlen : (xs.drop (Q + 1 - 1)).length ≤ n := by
        simp only [List.length_drop]
        simp at h
        omega
      rw [List.length_cons, ih _ hlen]
      simp only [List.length_drop, List.length_cons]
      rcases le_or_lt Q xs.length with hq | hq
      · have h1 : xs.length - (Q + 1 - 1) + (Q + 1) - 1 = xs.length := by omega
        have h2 : xs.length + 1 + (Q + 1) - 1 = xs.length + (Q + 1) := by omega
        rw [h1, h2, Nat.add_div_right _ (by omega : 0 < Q + 1)]
      · have h3 : xs.length - (Q + 1 - 1) = 0 := by omega
        rw [h3]
        have h4 : (0 + (Q + 1) - 1) / (Q + 1) = 0 := Nat.div_eq_of_lt (by omega)
        have h5 : (xs.length + 1 + (Q + 1) - 1) / (Q + 1) = 1 :=
          Nat.div_eq_of_lt_le (by omega) (by omega)
        omega

/-- The pages cover the list: the list length is at most pages times page
size, so the fetch after the last page is empty. -/
theorem paginate_len_le (P : Nat) (hP : 0 < P) :
    ∀ (n : Nat) (l : List Row), l.length ≤ n →
      l.length ≤ (paginate P l).length * P := by
  obtain ⟨Q, rfl⟩ : ∃ Q, P = Q + 1 := ⟨P - 1, by omega⟩
  intro n
  induction n with
  | zero =>
    intro l h
    match l with
    | [] => simp [paginate, paginateAux]
    | x :: xs => simp at h
  | succ n ih =>
    intro l h
    match l with
    | [] => simp [paginate, paginateAux]
    | x :: xs =>
      rw [paginate_cons]
      have hlen : (xs.drop (Q + 1 - 1)).length ≤ n := by
        simp only [List.length_drop]
        simp at h
        omega
      have hrec := ih _ hlen
      simp only [List.length_drop] at hrec
      simp only [List.length_cons]
      have hdist : ((paginate (Q + 1) (xs.drop (Q + 1 - 1))).length + 1) * (Q + 1)
          = (paginate (Q + 1) (xs.drop (Q + 1 - 1))).length * (Q + 1) + (Q + 1) := by
        ring
      omega

/-- The k-th page equals the one-query fetch at offset `k * P`. -/
theorem paginate_getD (P : Nat) (hP : 0 < P) :
    ∀ (n : Nat) (l : List Row), l.length ≤ n →
      ∀ k, k < (paginate P l).length →
        (paginate P l).getD k [] = (l.drop (k * P)).take P := by
  obtain ⟨Q, rfl⟩ : ∃ Q, P = Q + 1 := ⟨P - 1, by omega⟩
  intro n
  induction n with
  | zero =>
    intro l h k hk
    match l with
    | [] => simp [paginate, paginateAux] at hk
    | x :: xs => simp at h
  | succ n ih =>
    intro l h k hk
    match l with
    | [] => simp [paginate, paginateAux] at hk
    | x :: xs =>
      rw [paginate_cons] at hk ⊢
      have hlen : (xs.drop (Q + 1 - 1)).length ≤ n := by
        simp only [List.length_drop]
        simp at h
        omega
      match k with
      | 0 => simp [List.take_succ_cons]
      | k + 1 =>
        rw [List.length_cons] at hk
        simp only [List.getD_cons_succ]
        rw [ih _ hlen k (by omega)]
        have h1 : (xs.drop (Q + 1 - 1)).drop (k * (Q + 1)) = xs.drop (k * (Q + 1) + Q) := by
          rw [List.drop_drop]
          congr 1
          omega
        have h2 : (x :: xs).drop ((k + 1) * (Q + 1)) = xs.drop (k * (Q + 1) + Q) := by
          have h3 : (k + 1) * (Q + 1) = (k * (Q + 1) + Q) + 1 := by ring
          rw [h3, List.drop_succ_cons]
        rw [h1, h2]

/-- The fetch loop computes exactly the structural page splitter. -/
theorem migrateLoopAux_eq (P : Nat) (hP : 0 < P) (rows : List Row) :
    ∀ fuel off, rows.length - off < fuel →
      migrateLoopAux P rows fuel off = paginate P (rows.drop off) := by
  intro fuel
  induction fuel with
  | zero => intro off h; omega
  | succ f ih =>
    intro off h
    simp only [migrateLoopAux, fetchPage]
    cases hd : rows.drop off with
    | nil => simp [hd, paginate, paginateAux]
    | cons x xs =>
      obtain ⟨Q, rfl⟩ : ∃ Q, P = Q + 1 := ⟨P - 1, by omega⟩
      have hlen : xs.length + 1 = rows.length - off := by
        have h2 := List.length_drop off rows
        rw [hd] at h2
        simp at h2
        omega
      rw [List.take_succ_cons, if_neg (by simp)]
      have hrec : rows.length - (off + (Q + 1)) < f := by omega
      rw [ih (off + (Q + 1)) hrec, paginate_cons]
      have hdrop : rows.drop (off + (Q + 1)) = xs.drop (Q + 1 - 1) := by
        have h4 : rows.drop (off + (Q + 1)) = (rows.drop off).drop (Q + 1) := by
          rw [List.drop_drop]
        rw [h4, hd, List.drop_succ_cons, Nat.add_sub_cancel]
      rw [hdrop, Nat.add_sub_cancel]

/-- The batches produced by the fetch loop, via the bridge. -/
theorem migrateLoop_eq_paginate (P : Nat) (hP : 0 < P) (rows : List Row) :
    migrateLoop P rows = paginate P rows := by
  rw [migrateLoop, migrateLoopAux_eq P hP rows (rows.length + 1) 0 (by omega),
    List.drop_zero]

/-- The saved filters repair keeps exactly the rows with no bad
designated column, in order, and logs one skip diagnostic per dropped
row, in row order. -/
theorem savedFiltersRepair_eq (jsonErr : String → Option String) :
    ∀ batch : List Row,
      savedFiltersRepair jsonErr batch
        = (batch.filter (fun r => !(badRow jsonErr r)),
           batch.filterMap (fun r =>
             (firstBadCol jsonErr r designatedJsonCols).map
               (fun p => skipMsg p.1 p.2.1 p.2.2))) := by
  intro batch
  induction batch with
  | nil => rfl
  | cons r rs ih =>
    simp only [savedFiltersRepair, ih]
    cases hb : firstBadCol jsonErr r designatedJsonCols with
    | none => simp [List.filter_cons, List.filterMap_cons, badRow, hb]
    | some p =>
      obtain ⟨obj, e, s⟩ := p
      simp [List.filter_cons, List.filterMap_cons, badRow, hb]

/-- Counting a predicate and its negation partitions a list's length. -/
theorem countP_not_add_countP (p : Row → Bool) :
    ∀ l : List Row, l.countP (fun r => !(p r)) + l.countP p = l.length := by
  intro l
  induction l with
  | nil => rfl
  | cons r rs ih =>
    cases hp : p r <;>
      simp [List.countP_cons, hp, ← ih] <;> omega

/-- A drop reported by `firstBadCol` is always caused by a string value
in a designated column that fails to parse. -/
theorem firstBadCol_string_cause (jsonErr : String → Option String) (row : Row) :
    ∀ cols obj e s, firstBadCol jsonErr row cols = some (obj, e, s) →
      obj ∈ cols ∧ lookVal row obj = some (Value.vStr s) ∧ jsonErr s = some e := by
  intro cols
  induction cols with
  | nil => intro obj e s h; simp [firstBadCol] at h
  | cons c cs ih =>
    intro obj e s h
    have hrec : firstBadCol jsonErr row cs = some (obj, e, s) →
        obj ∈ c :: cs ∧ lookVal row obj = some (Value.vStr s) ∧ jsonErr s = some e := by
      intro h2
      have h3 := ih obj e s h2
      exact ⟨List.mem_cons_of_mem _ h3.1, h3.2.1, h3.2.2⟩
    simp only [firstBadCol] at h
    cases hv : lookVal row c with
    | none =>
      rw [hv] at h
      exact hrec h
    | some v =>
      rw [hv] at h
      cases v with
      | vNull => exact hrec h
      | vInt i => exact hrec h
      | vBool b => exact hrec h
      | vBytes bs => exact hrec h
      | vTime t => exact hrec h
      | vStr s2 =>
        have h2 : (match jsonErr s2 with
            | some e2 => some (c, e2, s2)
            | none => firstBadCol jsonErr row cs) = some (obj, e, s) := h
        cases he : jsonErr s2 with
        | none =>
          rw [he] at h2
          exact hrec h2
        | some e2 =>
          rw [he] at h2
          obtain ⟨ho, he2, hs2⟩ : c = obj ∧ e2 = e ∧ s2 = s := by
            simpa using h2
          subst ho
          subst he2
          subst hs2
          exact ⟨List.mem_cons_self _ _, hv, he⟩

/-! Claim theorems. -/

/-- C6: the numeric range clamp maps every 64-bit integer input into the
32-bit range: values above the maximum return the maximum, values below
the minimum return the minimum, in-range values (boundaries included)
are returned unchanged, and the result is always within the range. -/
theorem c6_clamp_range (v : Int) :
    (2147483647 < v → clampInt64ToInt32 v = 2147483647)
    ∧ (v < -2147483648 → clampInt64ToInt32 v = -2147483648)
    ∧ (-2147483648 ≤ v → v ≤ 2147483647 → clampInt64ToInt32 v = v)
    ∧ -2147483648 ≤ clampInt64ToInt32 v ∧ clampInt64ToInt32 v ≤ 2147483647 := by
  simp only [clampInt64ToInt32]
  split_ifs with h1 h2 <;> refine ⟨?_, ?_, ?_, ?_, ?_⟩ <;> intros <;> omega

/-- Witness for C6 at the boundaries, one unit outside them, and an
interior point. -/
theorem c6_clamp_range_witness :
    clampInt64ToInt32 2147483648 = 2147483647
    ∧ clampInt64ToInt32 (-2147483649) = -2147483648
    ∧ clampInt64ToInt32 2147483647 = 2147483647
    ∧ clampInt64ToInt32 (-2147483648) = -2147483648
    ∧ clampInt64ToInt32 5 = 5 :=
  ⟨(c6_clamp_range 2147483648).1 (by decide),
   (c6_clamp_range (-2147483649)).2.1 (by decide),
   (c6_clamp_range 2147483647).2.2.1 (by decide) (by decide),
   (c6_clamp_range (-2147483648)).2.2.1 (by decide) (by decide),
   (c6_clamp_range 5).2.2.1 (by decide) (by decide)⟩

/-- C7: the sequence resynchronizer sets the next generated id to
`max(id) + 1` over a non-empty table, to `1` over an empty table, and to
`13` for ids `{3, 7, 12}`; every resynchronized table is one of the
migrated tables. -/
theorem c7_sequence_resync :
    restartSeqNext [] = 1
    ∧ restartSeqNext [3, 7, 12] = 13
    ∧ (∀ ids : List Int, ids ≠ [] →
        ∃ m, maxId ids = some m ∧ m ∈ ids ∧ (∀ x ∈ ids, x ≤ m)
          ∧ restartSeqNext ids = m + 1)
    ∧ (∀ t ∈ seqTables, t ∈ migrateTables) := by
  refine ⟨rfl, by decide, ?_, by decide⟩
  intro ids h
  obtain ⟨m, hm, hmem, hub⟩ := maxId_spec ids h
  exact ⟨m, hm, hmem, hub, by simp [restartSeqNext, hm]⟩

/-- Witness for C7 on a concrete non-empty id list. -/
theorem c7_sequence_resync_witness :
    ∃ m, maxId [3, 7, 12] = some m ∧ m ∈ [3, 7, 12]
      ∧ (∀ x ∈ [3, 7, 12], x ≤ m) ∧ restartSeqNext [3, 7, 12] = m + 1 :=
  c7_sequence_resync.2.2.1 [3, 7, 12] (by decide)

/-- C8: the derived-type-tag rule is dead code during a migration run:
`performer_custom_fields` is not in the migration table list, so the run
never fetches a batch of it; the rule itself, applied to a batch
directly, does set each row's type column to the runtime type string of
its value column. -/
theorem c8_type_tag_dead_rule :
    ¬ ("performer_custom_fields" ∈ migrateTables)
    ∧ typeTagBatch [[("value", Value.vInt 3)]]
        = some [[("value", Value.vInt 3), ("type", Value.vStr "int64")]] :=
  ⟨by decide, by decide⟩

/-- C10: the derived-type-tag repair is total only when every row's value
column is non-null: a concrete batch with a null value column makes it
panic (`none`), while any batch of rows with non-null value columns is
tagged successfully. -/
theorem c10_type_tag_panics_on_null :
    typeTagBatch [[("id", Value.vInt 1), ("value", Value.vNull)]] = none
    ∧ ∀ batch : List Row, (∀ r ∈ batch, goValue r "value" ≠ Value.vNull) →
        ∃ out, typeTagBatch batch = some out := by
  refine ⟨rfl, ?_⟩
  intro batch h
  induction batch with
  | nil => exact ⟨[], rfl⟩
  | cons r rs ih =>
    obtain ⟨out, hout⟩ := ih (fun x hx => h x (List.mem_cons_of_mem _ hx))
    have hr := h r (List.mem_cons_self _ _)
    cases hv : goValue r "value" with
    | vNull => exact absurd hv hr
    | vInt i =>
      exact ⟨setVal r "type" (Value.vStr "int64") :: out,
        by simp [typeTagBatch, typeTagRow, hv, reflectTypeString, hout]⟩
    | vBool b =>
      exact ⟨setVal r "type" (Value.vStr "bool") :: out,
        by simp [typeTagBatch, typeTagRow, hv, reflectTypeString, hout]⟩
    | vStr s =>
      exact ⟨setVal r "type" (Value.vStr "string") :: out,
        by simp [typeTagBatch, typeTagRow, hv, reflectTypeString, hout]⟩
    | vBytes bs =>
      exact ⟨setVal r "type" (Value.vStr "[]uint8") :: out,
        by simp [typeTagBatch, typeTagRow, hv, reflectTypeString, hout]⟩
    | vTime t =>
      exact ⟨setVal r "type" (Value.vStr "time.Time") :: out,
        by simp [typeTagBatch, typeTagRow, hv, reflectTypeString, hout]⟩

/-- C2: with page size `P > 0` over a table of `N` rows, the fetch loop
produces exactly `ceil(N/P)` non-empty batches, the fetch after the last
batch is empty (terminating the loop), the concatenation of the batches
is the full table in source order (so batches are written in the order
they were read), and the k-th batch is the `LIMIT P OFFSET k*P` query
result. -/
theorem c2_pagination (P : Nat) (rows : List Row) (hP : 0 < P) :
    (migrateLoop P rows).length = (rows.length + P - 1) / P
    ∧ (∀ b ∈ migrateLoop P rows, b ≠ [])
    ∧ (migrateLoop P rows).flatten = rows
    ∧ fetchPage rows P ((migrateLoop P rows).length * P) = []
    ∧ ∀ k, k < (migrateLoop P rows).length →
        (migrateLoop P rows).getD k [] = fetchPage rows P (k * P) := by
  rw [migrateLoop_eq_paginate P hP rows]
  refine ⟨paginate_length P hP rows.length rows le_rfl,
    paginate_nonempty P rows.length rows le_rfl,
    paginate_flatten P rows.length rows le_rfl, ?_, ?_⟩
  · have hle := paginate_len_le P hP rows.length rows le_rfl
    simp only [fetchPage]
    rw [List.drop_eq_nil_of_le hle, List.take_nil]
  · exact paginate_getD P hP rows.length rows le_rfl

/-- Witness for C2 at page size 2 over three rows. -/
theorem c2_pagination_witness :
    (migrateLoop 2 exRows).length = (exRows.length + 2 - 1) / 2
    ∧ (migrateLoop 2 exRows).flatten = exRows
    ∧ fetchPage exRows 2 ((migrateLoop 2 exRows).length * 2) = [] :=
  ⟨(c2_pagination 2 exRows (by decide)).1,
   (c2_pagination 2 exRows (by decide)).2.2.1,
   (c2_pagination 2 exRows (by decide)).2.2.2.1⟩

/-- Witness for C10 on a concrete all-non-null batch. -/
theorem c10_type_tag_panics_on_null_witness :
    ∃ out, typeTagBatch [[("value", Value.vStr "x")]] = some out :=
  c10_type_tag_panics_on_null.2 [[("value", Value.vStr "x")]] (by decide)

/-- C4: the JSON validity filter keeps exactly the rows whose designated
columns all parse (unchanged and in order), returns an all-valid batch
equal to the input with no diagnostics, logs a diagnostic naming the
offending column, parse error and raw text for each dropped row, and
never aborts the run (the repair always yields a batch). -/
theorem c4_json_validity_filter (jsonErr : String → Option String) (batch : List Row) :
    (savedFiltersRepair jsonErr batch).1 = batch.filter (fun r => !(badRow jsonErr r))
    ∧ ((∀ r ∈ batch, badRow jsonErr r = false) →
        savedFiltersRepair jsonErr batch = (batch, []))
    ∧ (∀ r ∈ batch, ∀ obj e s,
        firstBadCol jsonErr r designatedJsonCols = some (obj, e, s) →
        skipMsg obj e s ∈ (savedFiltersRepair jsonErr batch).2)
    ∧ ∀ parse now b, ∃ res,
        repairBatch jsonErr parse now "saved_filters" b = some res := by
  refine ⟨by rw [savedFiltersRepair_eq], ?_, ?_, ?_⟩
  · intro hall
    have h1 : batch.filter (fun r => !(badRow jsonErr r)) = batch :=
      List.filter_eq_self.mpr (by intro a ha; simp [hall a ha])
    have h2 : batch.filterMap (fun r =>
        (firstBadCol jsonErr r designatedJsonCols).map
          (fun p => skipMsg p.1 p.2.1 p.2.2)) = [] := by
      rw [List.filterMap_eq_nil_iff]
      intro a ha
      have h3 := hall a ha
      simp only [badRow] at h3
      cases hb : firstBadCol jsonErr a designatedJsonCols with
      | none => simp
      | some p => rw [hb] at h3; simp at h3
    rw [savedFiltersRepair_eq, h1, h2]
  · intro r hr obj e s hbad
    rw [savedFiltersRepair_eq]
    refine List.mem_filterMap.mpr ⟨r, hr, ?_⟩
    rw [hbad]
    rfl
  · intro parse now b
    exact ⟨_, rfl⟩

/-- Witness for C4 on concrete batches with valid and invalid JSON. -/
theorem c4_json_validity_filter_witness :
    savedFiltersRepair exJsonErr [exGoodRow] = ([exGoodRow], [])
    ∧ skipMsg "find_filter" "unexpected end of JSON input" "["
        ∈ (savedFiltersRepair exJsonErr [exGoodRow, exBadRow]).2
    ∧ ∃ res, repairBatch exJsonErr (fun _ => none) ⟨2025, 0⟩ "saved_filters"
        [exGoodRow, exBadRow] = some res :=
  ⟨(c4_json_validity_filter exJsonErr [exGoodRow]).2.1 (by decide),
   (c4_json_validity_filter exJsonErr [exGoodRow, exBadRow]).2.2.1 exBadRow (by decide)
     "find_filter" "unexpected end of JSON input" "[" (by decide),
   (c4_json_validity_filter exJsonErr [exGoodRow, exBadRow]).2.2.2 (fun _ => none)
     ⟨2025, 0⟩ [exGoodRow, exBadRow]⟩

/-- C9: the JSON validity filter only parses a designated column whose
value is a string: every drop is caused by a string value in a
designated column, so a row whose designated columns hold non-string
values is never validated against the JSON oracle and is always kept. -/
theorem c9_nonstring_designated_skipped (jsonErr : String → Option String) (row : Row) :
    (∀ obj e s, firstBadCol jsonErr row designatedJsonCols = some (obj, e, s) →
      obj ∈ designatedJsonCols ∧ lookVal row obj = some (Value.vStr s)
        ∧ jsonErr s = some e)
    ∧ ((∀ obj ∈ designatedJsonCols, isStringVal (lookVal row obj) = false) →
        badRow jsonErr row = false)
    ∧ ((∀ obj ∈ designatedJsonCols, isStringVal (lookVal row obj) = false) →
        ∀ batch, row ∈ batch → row ∈ (savedFiltersRepair jsonErr batch).1) := by
  have hcause := firstBadCol_string_cause jsonErr row designatedJsonCols
  have hfalse : (∀ obj ∈ designatedJsonCols, isStringVal (lookVal row obj) = false) →
      badRow jsonErr row = false := by
    intro hns
    cases hb : firstBadCol jsonErr row designatedJsonCols with
    | none => simp [badRow, hb]
    | some p =>
      obtain ⟨obj, e, s⟩ := p
      have h2 := hcause obj e s hb
      have h3 := hns obj h2.1
      rw [h2.2.1] at h3
      simp [isStringVal] at h3
  refine ⟨hcause, hfalse, ?_⟩
  intro hns batch hmem
  rw [savedFiltersRepair_eq]
  exact List.mem_filter.mpr ⟨hmem, by simp [hfalse hns]⟩

/-- Witness for C9: a row with only non-string designated columns is kept
even under an oracle that rejects every string. -/
theorem c9_nonstring_designated_skipped_witness :
    badRow exAllBadJson exNonStringRow = false
    ∧ exNonStringRow ∈ (savedFiltersRepair exAllBadJson [exNonStringRow]).1 :=
  ⟨(c9_nonstring_designated_skipped exAllBadJson exNonStringRow).2.1 (by decide),
   (c9_nonstring_designated_skipped exAllBadJson exNonStringRow).2.2 (by decide)
     [exNonStringRow] (by decide)⟩

/-- Looking up the key just set returns the new value. -/
theorem lookVal_setVal_self (r : Row) (k : String) (v : Value) :
    lookVal (setVal r k v) k = some v := by
  induction r with
  | nil => simp [setVal, lookVal]
  | cons p rest ih =>
    obtain ⟨k2, v2⟩ := p
    by_cases h : k2 = k
    · simp [setVal, h, lookVal]
    · simp [setVal, h, lookVal, ih]

/-- Setting one key does not disturb the lookup of another. -/
theorem lookVal_setVal_ne (r : Row) (k k2 : String) (v : Value) (h : k2 ≠ k) :
    lookVal (setVal r k2 v) k = lookVal r k := by
  induction r with
  | nil => simp [setVal, lookVal, h]
  | cons p rest ih =>
    obtain ⟨k3, v3⟩ := p
    by_cases h2 : k3 = k2
    · subst h2
      simp [setVal, lookVal, h]
    · simp [setVal, h2, lookVal, ih]

/-- The scene markers row fix rewrites a present `created_at` column to
the fixed value. -/
theorem fixRowTimes_lookup_created (parse : String → Option GoTime) (now : GoTime)
    (row : Row) (v : Value) (h : lookVal row "created_at" = some v) :
    lookVal (fixRowTimes parse now row).1 "created_at"
      = some (fixTime parse now "created_at" v).1 := by
  have hne : ("updated_at" : String) ≠ "created_at" := by decide
  simp only [fixRowTimes, tsKeys, fixRowTimesAux, h]
  cases h2 : lookVal (setVal row "created_at" (fixTime parse now "created_at" v).1)
      "updated_at" with
  | none => simp [h2, lookVal_setVal_self]
  | some w => simp [h2, lookVal_setVal_ne _ _ _ _ hne, lookVal_setVal_self]

/-- The scene markers row fix rewrites a present `updated_at` column to
the fixed value. -/
theorem fixRowTimes_lookup_updated (parse : String → Option GoTime) (now : GoTime)
    (row : Row) (v : Value) (h : lookVal row "updated_at" = some v) :
    lookVal (fixRowTimes parse now row).1 "updated_at"
      = some (fixTime parse now "updated_at" v).1 := by
  have hne : ("created_at" : String) ≠ "updated_at" := by decide
  simp only [fixRowTimes, tsKeys, fixRowTimesAux]
  cases h1 : lookVal row "created_at" with
  | none => simp [h1, h, lookVal_setVal_self]
  | some u =>
    have h3 : lookVal (setVal row "created_at" (fixTime parse now "created_at" u).1)
        "updated_at" = some v := by
      rw [lookVal_setVal_ne _ _ _ _ hne, h]
    simp [h1, h3, lookVal_setVal_self]

/-- The scene markers repair fixes each row in place, preserving order
and count. -/
theorem sceneMarkersRepair_fst (parse : String → Option GoTime) (now : GoTime) :
    ∀ batch : List Row,
      (sceneMarkersRepair parse now batch).1
        = batch.map (fun r => (fixRowTimes parse now r).1) := by
  intro batch
  induction batch with
  | nil => rfl
  | cons r rs ih => simp [sceneMarkersRepair, ih]

/-- C5: a text timestamp that parses to year 1 or later is replaced by
its parsed value; a text timestamp that fails to parse, or any
timestamp with year before 1, is replaced by the current UTC time with
a diagnostic; a valid pre-parsed timestamp passes through; the row fix
writes the fixed value into each present designated column, and the
batch repair applies it to every row. -/
theorem c5_timestamp_normalization (parse : String → Option GoTime) (now : GoTime)
    (tsKey s : String) (t : GoTime) (v : Value) (row : Row) :
    (parse s = some t → 1 ≤ t.year →
      fixTime parse now tsKey (Value.vStr s) = (Value.vTime t, none))
    ∧ (parse s = none →
      fixTime parse now tsKey (Value.vStr s)
        = (Value.vTime now, some ("Invalid time for " ++ tsKey)))
    ∧ (parse s = some t → t.year < 1 →
      fixTime parse now tsKey (Value.vStr s)
        = (Value.vTime now, some ("Invalid time for " ++ tsKey)))
    ∧ (1 ≤ t.year →
      fixTime parse now tsKey (Value.vTime t) = (Value.vTime t, none))
    ∧ (t.year < 1 →
      fixTime parse now tsKey (Value.vTime t)
        = (Value.vTime now, some ("Out-of-range time for " ++ tsKey)))
    ∧ (lookVal row "created_at" = some v →
        lookVal (fixRowTimes parse now row).1 "created_at"
          = some (fixTime parse now "created_at" v).1)
    ∧ (lookVal row "updated_at" = some v →
        lookVal (fixRowTimes parse now row).1 "updated_at"
          = some (fixTime parse now "updated_at" v).1)
    ∧ ∀ batch : List Row,
        (sceneMarkersRepair parse now batch).1
          = batch.map (fun r => (fixRowTimes parse now r).1) := by
  refine ⟨?_, ?_, ?_, ?_, ?_,
    fixRowTimes_lookup_created parse now row v,
    fixRowTimes_lookup_updated parse now row v,
    sceneMarkersRepair_fst parse now⟩
  · intro hp hy
    simp [fixTime, hp, isValidPostgresTime, hy]
  · intro hp
    simp [fixTime, hp]
  · intro hp hy
    have h2 : ¬ (1 ≤ t.year) := by omega
    simp [fixTime, hp, isValidPostgresTime, h2]
  · intro hy
    simp [fixTime, isValidPostgresTime, hy]
  · intro hy
    have h2 : ¬ (1 ≤ t.year) := by omega
    simp [fixTime, isValidPostgresTime, h2]

/-- Witness for C5 on concrete parses, an out-of-range pre-parsed time,
and a concrete row. -/
theorem c5_timestamp_normalization_witness :
    fixTime exParse exNow "created_at" (Value.vStr "2024-01-01T00:00:00Z")
      = (Value.vTime ⟨2024, 5⟩, none)
    ∧ fixTime exParse exNow "created_at" (Value.vStr "oops")
      = (Value.vTime exNow, some ("Invalid time for " ++ "created_at"))
    ∧ fixTime exParse exNow "created_at" (Value.vStr "0000-06-01T00:00:00Z")
      = (Value.vTime exNow, some ("Invalid time for " ++ "created_at"))
    ∧ fixTime exParse exNow "updated_at" (Value.vTime ⟨0, 9⟩)
      = (Value.vTime exNow, some ("Out-of-range time for " ++ "updated_at"))
    ∧ lookVal (fixRowTimes exParse exNow exMarkerRow).1 "created_at"
      = some (fixTime exParse exNow "created_at" (Value.vStr "2024-01-01T00:00:00Z")).1 :=
  ⟨(c5_timestamp_normalization exParse exNow "created_at" "2024-01-01T00:00:00Z"
      ⟨2024, 5⟩ Value.vNull []).1 (by decide) (by decide),
   (c5_timestamp_normalization exParse exNow "created_at" "oops"
      ⟨2024, 5⟩ Value.vNull []).2.1 (by decide),
   (c5_timestamp_normalization exParse exNow "created_at" "0000-06-01T00:00:00Z"
      ⟨0, 3⟩ Value.vNull []).2.2.1 (by decide) (by decide),
   (c5_timestamp_normalization exParse exNow "updated_at" "x"
      ⟨0, 9⟩ Value.vNull []).2.2.2.2.1 (by decide),
   (c5_timestamp_normalization exParse exNow "created_at" "x"
      ⟨0, 9⟩ (Value.vStr "2024-01-01T00:00:00Z") exMarkerRow).2.2.2.2.2.1 (by decide)⟩

/-- A successful type-tag repair preserves the batch's row count. -/
theorem typeTagBatch_length : ∀ (b out : List Row),
    typeTagBatch b = some out → out.length = b.length := by
  intro b
  induction b with
  | nil =>
    intro out h
    simp only [typeTagBatch] at h
    obtain rfl : ([] : List Row) = out := by simpa using h
    rfl
  | cons r rs ih =>
    intro out h
    simp only [typeTagBatch] at h
    cases ht : typeTagRow r with
    | none => rw [ht] at h; simp at h
    | some r2 =>
      rw [ht] at h
      cases hb : typeTagBatch rs with
      | none => rw [hb] at h; simp at h
      | some rest =>
        rw [hb] at h
        obtain rfl : r2 :: rest = out := by simpa using h
        simp [ih rest hb]

/-- Row-count accounting and saved-filters characterization of one
repaired batch. -/
theorem repairBatch_spec (jsonErr : String → Option String)
    (parse : String → Option GoTime) (now : GoTime) (table : String)
    (batch out : List Row) (logs : List String)
    (h : repairBatch jsonErr parse now table batch = some (out, logs)) :
    out.length + (if table = "saved_filters" then batch.countP (badRow jsonErr) else 0)
      = batch.length
    ∧ (table = "saved_filters" →
        out = batch.filter (fun r => !(badRow jsonErr r))
        ∧ logs = batch.filterMap (fun r =>
            (firstBadCol jsonErr r designatedJsonCols).map
              (fun p => skipMsg p.1 p.2.1 p.2.2))) := by
  by_cases h1 : table = "video_files"
  · subst h1
    simp only [repairBatch] at h
    simp at h
    obtain ⟨rfl, rfl⟩ := h
    simp [clampBatch]
  · by_cases h2 : table = "performer_custom_fields"
    · subst h2
      simp only [repairBatch] at h
      simp at h
      cases ht : typeTagBatch batch with
      | none => rw [ht] at h; simp at h
      | some b2 =>
        rw [ht] at h
        simp at h
        obtain ⟨rfl, rfl⟩ := h
        simp [typeTagBatch_length batch b2 ht]
    · by_cases h3 : table = "saved_filters"
      · subst h3
        simp only [repairBatch] at h
        simp at h
        rw [savedFiltersRepair_eq] at h
        simp only [Prod.mk.injEq] at h
        obtain ⟨rfl, rfl⟩ := h
        refine ⟨?_, fun _ => ⟨rfl, rfl⟩⟩
        have hf : (List.filter (fun r => !(badRow jsonErr r)) batch).length
            = batch.countP (fun r => !(badRow jsonErr r)) :=
          (List.countP_eq_length_filter _ _).symm
        rw [if_pos rfl, hf]
        exact countP_not_add_countP (badRow jsonErr) batch
      · by_cases h4 : table = "scene_markers"
        · subst h4
          simp only [repairBatch] at h
          simp at h
          have ho : out = (sceneMarkersRepair parse now batch).1 := by
            rw [h]
          constructor
          · rw [if_neg (by decide : ¬("scene_markers" : String) = "saved_filters")]
            rw [ho, sceneMarkersRepair_fst]
            simp
          · intro hs
            exact absurd hs (by decide)
        · have h5 : repairBatch jsonErr parse now table batch = some (batch, []) := by
            simp only [repairBatch, if_neg h1, if_neg h2, if_neg h3, if_neg h4]
            rfl
          rw [h5] at h
          simp only [Option.some.injEq, Prod.mk.injEq] at h
          obtain ⟨rfl, rfl⟩ := h
          exact ⟨by rw [if_neg h3]; simp, fun hs => absurd hs h3⟩

/-- Row-count accounting and saved-filters characterization over a list
of repaired batches. -/
theorem migrateBatches_spec (jsonErr : String → Option String)
    (parse : String → Option GoTime) (now : GoTime) (table : String) :
    ∀ (bs : List (List Row)) (out : List Row) (logs : List String),
      migrateBatches jsonErr parse now table bs = some (out, logs) →
      (out.length
          + (if table = "saved_filters" then bs.flatten.countP (badRow jsonErr) else 0)
        = bs.flatten.length)
      ∧ (table = "saved_filters" →
          out = bs.flatten.filter (fun r => !(badRow jsonErr r))
          ∧ logs = bs.flatten.filterMap (fun r =>
              (firstBadCol jsonErr r designatedJsonCols).map
                (fun p => skipMsg p.1 p.2.1 p.2.2))) := by
  intro bs
  induction bs with
  | nil =>
    intro out logs h
    simp only [migrateBatches] at h
    simp at h
    obtain ⟨rfl, rfl⟩ := h
    simp
  | cons b rest ih =>
    intro out logs h
    simp only [migrateBatches] at h
    cases hr : repairBatch jsonErr parse now table b with
    | none => rw [hr] at h; simp at h
    | some p =>
      rw [hr] at h
      cases hm : migrateBatches jsonErr parse now table rest with
      | none => rw [hm] at h; simp at h
      | some q =>
        rw [hm] at h
        simp at h
        obtain ⟨rfl, rfl⟩ := h
        obtain ⟨po, pl⟩ := p
        obtain ⟨qo, ql⟩ := q
        have hb := repairBatch_spec jsonErr parse now table b po pl hr
        have hrest := ih qo ql hm
        constructor
        · simp only [List.flatten_cons, List.countP_append, List.length_append,
            List.length_append]
          by_cases hs : table = "saved_filters"
          · simp only [if_pos hs] at hb hrest ⊢
            omega
          · simp only [if_neg hs] at hb hrest ⊢
            omega
        · intro hs
          obtain ⟨hbo, hbl⟩ := hb.2 hs
          obtain ⟨hqo, hql⟩ := hrest.2 hs
          subst hbo
          subst hbl
          subst hqo
          subst hql
          simp [List.flatten_cons, List.filter_append, List.filterMap_append]

/-- C1: for every table and source contents, a completed migration of
the table writes exactly the rows read minus those dropped by the
JSON-validity rule; the row count is preserved for every other table
(so only the JSON rule changes it, and it can only shrink); and for
`saved_filters` every row read is either written unchanged or dropped
with a skip diagnostic naming its offending column in the log. -/
theorem c1_row_conservation (jsonErr : String → Option String)
    (parse : String → Option GoTime) (now : GoTime) (table : String)
    (P : Nat) (rows out : List Row) (logs : List String)
    (hP : 0 < P)
    (h : migrateTable jsonErr parse now P table rows = some (out, logs)) :
    out.length + (if table = "saved_filters" then rows.countP (badRow jsonErr) else 0)
      = rows.length
    ∧ out.length ≤ rows.length
    ∧ (table ≠ "saved_filters" → out.length = rows.length)
    ∧ (table = "saved_filters" → ∀ r ∈ rows,
        r ∈ out ∨ (badRow jsonErr r = true ∧ ∃ obj e s,
          firstBadCol jsonErr r designatedJsonCols = some (obj, e, s)
          ∧ skipMsg obj e s ∈ logs)) := by
  unfold migrateTable at h
  rw [migrateLoop_eq_paginate P hP rows] at h
  have hspec := migrateBatches_spec jsonErr parse now table _ out logs h
  rw [paginate_flatten P rows.length rows le_rfl] at hspec
  obtain ⟨hlen, hsf⟩ := hspec
  refine ⟨hlen, ?_, ?_, ?_⟩
  · by_cases hs : table = "saved_filters"
    · rw [if_pos hs] at hlen; omega
    · rw [if_neg hs] at hlen; omega
  · intro hns
    rw [if_neg hns] at hlen
    omega
  · intro hs r hr
    obtain ⟨ho, hl⟩ := hsf hs
    by_cases hbad : badRow jsonErr r = true
    · right
      refine ⟨hbad, ?_⟩
      cases hb : firstBadCol jsonErr r designatedJsonCols with
      | none => simp [badRow, hb] at hbad
      | some p =>
        obtain ⟨obj, e, s⟩ := p
        refine ⟨obj, e, s, rfl, ?_⟩
        rw [hl]
        refine List.mem_filterMap.mpr ⟨r, hr, ?_⟩
        rw [hb]
        rfl
    · left
      rw [ho]
      exact List.mem_filter.mpr ⟨hr, by simp [Bool.of_not_eq_true hbad]⟩

/-- Witness for C1 on a concrete `saved_filters` migration of two rows,
one of which is dropped by the JSON rule. -/
theorem c1_row_conservation_witness :
    ([exGoodRow] : List Row).length
        + (if ("saved_filters" : String) = "saved_filters"
           then ([exGoodRow, exBadRow] : List Row).countP (badRow exJsonErr) else 0)
      = ([exGoodRow, exBadRow] : List Row).length :=
  (c1_row_conservation exJsonErr (fun _ => none) ⟨2025, 0⟩ "saved_filters" 2
    [exGoodRow, exBadRow] [exGoodRow]
    [skipMsg "find_filter" "unexpected end of JSON input" "["]
    (by decide) (by decide)).1

/-- The per-batch write loop with no failing exec commits every batch,
one commit per batch. -/
theorem writeBatchesPerTxn_ok (fails : Nat → Bool) :
    ∀ (bs : List (List Row)) (i : Nat),
      (∀ j, j < bs.length → fails (i + j) = false) →
      writeBatchesPerTxn fails i bs = ⟨bs, bs.length, true⟩ := by
  intro bs
  induction bs with
  | nil => intro i _; rfl
  | cons b rest ih =>
    intro i h
    have h0 : fails i = false := by simpa using h 0 (by simp)
    have hrest : ∀ j, j < rest.length → fails ((i + 1) + j) = false := by
      intro j hj
      have h2 := h (j + 1) (by simp only [List.length_cons]; omega)
      have h3 : i + (j + 1) = (i + 1) + j := by omega
      rw [h3] at h2
      exact h2
    simp [writeBatchesPerTxn, h0, ih (i + 1) hrest]

/-- The per-batch write loop aborts at the first failing exec: exactly
the batches before it are committed, the failing batch's transaction is
never committed. -/
theorem writeBatchesPerTxn_fail (fails : Nat → Bool) :
    ∀ (bs : List (List Row)) (i k : Nat),
      k < bs.length →
      (∀ j, j < k → fails (i + j) = false) →
      fails (i + k) = true →
      writeBatchesPerTxn fails i bs = ⟨bs.take k, k, false⟩ := by
  intro bs
  induction bs with
  | nil => intro i k hk _ _; simp at hk
  | cons b rest ih =>
    intro i k hk hpre hf
    match k with
    | 0 =>
      have h0 : fails i = true := by simpa using hf
      simp [writeBatchesPerTxn, h0]
    | k + 1 =>
      have h0 : fails i = false := by simpa using hpre 0 (by omega)
      have hpre2 : ∀ j, j < k → fails ((i + 1) + j) = false := by
        intro j hj
        have h2 := hpre (j + 1) (by omega)
        have h3 : i + (j + 1) = (i + 1) + j := by omega
        rw [h3] at h2
        exact h2
      have hf2 : fails ((i + 1) + k) = true := by
        have h3 : i + (k + 1) = (i + 1) + k := by omega
        rw [h3] at hf
        exact hf
      have hk2 : k < rest.length := by simp at hk; omega
      simp [writeBatchesPerTxn, h0, ih (i + 1) k hk2 hpre2 hf2, List.take_succ_cons]

/-- With no failing exec, every exec of the single transaction
succeeds. -/
theorem execAllBatches_ok (fails : Nat → Bool) :
    ∀ (bs : List (List Row)) (i : Nat),
      (∀ j, j < bs.length → fails (i + j) = false) →
      execAllBatches fails i bs = true := by
  intro bs
  induction bs with
  | nil => intro i _; rfl
  | cons b rest ih =>
    intro i h
    have h0 : fails i = false := by simpa using h 0 (by simp)
    have hrest : ∀ j, j < rest.length → fails ((i + 1) + j) = false := by
      intro j hj
      have h2 := h (j + 1) (by simp only [List.length_cons]; omega)
      have h3 : i + (j + 1) = (i + 1) + j := by omega
      rw [h3] at h2
      exact h2
    simp [execAllBatches, h0, ih (i + 1) hrest]

/-- A failing exec anywhere makes the single transaction fail. -/
theorem execAllBatches_fail (fails : Nat → Bool) :
    ∀ (bs : List (List Row)) (i k : Nat),
      k < bs.length → fails (i + k) = true →
      execAllBatches fails i bs = false := by
  intro bs
  induction bs with
  | nil => intro i k hk _; simp at hk
  | cons b rest ih =>
    intro i k hk hf
    cases h0 : fails i with
    | true => simp [execAllBatches, h0]
    | false =>
      match k with
      | 0 =>
        rw [Nat.add_zero] at hf
        rw [h0] at hf
        simp at hf
      | k + 1 =>
        have hf2 : fails ((i + 1) + k) = true := by
          have h3 : i + (k + 1) = (i + 1) + k := by omega
          rw [h3] at hf
          exact hf
        have hk2 : k < rest.length := by simp at hk; omega
        simp [execAllBatches, h0, ih (i + 1) k hk2 hf2]

/-- C3 (amended): in the per-batch-transaction variant every batch is
committed in its own transaction (commits equal batches) and a failed
run leaves exactly the batches committed before the failure; in the
run-wide-transaction variant a successful run performs a single commit
and a failed run leaves no batch committed. -/
theorem c3_transaction_scope (fails : Nat → Bool) (batches : List (List Row)) :
    ((∀ j, j < batches.length → fails j = false) →
      writeBatchesPerTxn fails 0 batches = ⟨batches, batches.length, true⟩)
    ∧ (∀ k, k < batches.length → (∀ j, j < k → fails j = false) → fails k = true →
        writeBatchesPerTxn fails 0 batches = ⟨batches.take k, k, false⟩)
    ∧ ((∀ j, j < batches.length → fails j = false) →
        writeBatchesOneTxn fails batches = ⟨batches, 1, true⟩)
    ∧ (∀ k, k < batches.length → fails k = true →
        writeBatchesOneTxn fails batches = ⟨[], 0, false⟩) := by
  refine ⟨?_, ?_, ?_, ?_⟩
  · intro h
    exact writeBatchesPerTxn_ok fails batches 0
      (by intro j hj; simpa using h j hj)
  · intro k hk hpre hf
    exact writeBatchesPerTxn_fail fails batches 0 k hk
      (by intro j hj; simpa using hpre j hj) (by simpa using hf)
  · intro h
    have h2 := execAllBatches_ok fails batches 0
      (by intro j hj; simpa using h j hj)
    simp [writeBatchesOneTxn, h2]
  · intro k hk hf
    have h2 := execAllBatches_fail fails batches 0 k hk (by simpa using hf)
    simp [writeBatchesOneTxn, h2]

/-- Counterexample to C3 as stated: in the `main.go` variant a
successful two-batch run performs one destination commit, not one per
batch, so no batch is written in a transaction scoped to that batch
alone. -/
theorem c3_counterexample_one_commit :
    (writeBatchesOneTxn (fun _ => false) [exB0, exB1]).commits
      ≠ [exB0, exB1].length := by decide

/-- Witness for C3 (amended): with the exec of global batch 1 failing,
the per-batch variant commits exactly batch 0 and the run-wide variant
commits nothing. -/
theorem c3_transaction_scope_witness :
    writeBatchesPerTxn (fun i => i == 1) 0 [exB0, exB1] = ⟨[exB0], 1, false⟩
    ∧ writeBatchesOneTxn (fun i => i == 1) [exB0, exB1] = ⟨[], 0, false⟩ := by
  constructor
  · have h := (c3_transaction_scope (fun i => i == 1) [exB0, exB1]).2.1 1
      (by decide) (by decide) (by decide)
    simpa using h
  · exact (c3_transaction_scope (fun i => i == 1) [exB0, exB1]).2.2.2 1
      (by decide) (by decide)

end StashMigrate
